import Mathlib

/-!
Verification of the taulu repository (e-ink photo frame backend).

The definitions below are a shallow embedding of the three Python source
files:

* `prepare.py` — the color pipeline (palettes, gamma conversion, dynamic
  range compression, Floyd–Steinberg dithering, palette-index remapping and
  4-bit packing).  Machine floats are modelled exactly: the dither's error
  buffer over `ℚ`, the gamma/luminance computations over `ℝ`.
* `main.py` — the `DailyImageManager` slot state machine.  Background
  threads are modelled by an explicit event list (`MEvent`): each call
  returns the successor state together with the persistence / spawn events
  the Python code performs, in order.
* `immich.py` — the `find_random_group_photo` candidate selection.  The
  `random.shuffle` of the candidate list is modelled by quantifying over the
  (already shuffled) candidate order; the network detail lookup
  (`get_asset_info`) is a function parameter.
-/

namespace Taulu

/-- RGB byte triple. -/
abbrev B3 := ℕ × ℕ × ℕ

/-- RGB triple with exact (rational) float model, for the dither's error buffer. -/
abbrev Q3 := ℚ × ℚ × ℚ

/-- `PALETTE_THEORETICAL` from prepare.py: output colors the firmware expects. -/
def PALETTE_THEORETICAL : List B3 :=
  [(0, 0, 0), (255, 255, 255), (255, 255, 0), (255, 0, 0), (0, 0, 255), (0, 255, 0)]

/-- `PALETTE_MEASURED` from prepare.py: colors actually rendered by the panel. -/
def PALETTE_MEASURED : List B3 :=
  [(2, 2, 2), (190, 200, 200), (205, 202, 0), (135, 19, 0), (5, 64, 158), (39, 102, 60)]

/-- Squared Euclidean RGB distance, as computed in `find_closest_palette_index`. -/
def sqDist (r g b : ℕ) (p : B3) : ℤ :=
  ((r : ℤ) - p.1) ^ 2 + ((g : ℤ) - p.2.1) ^ 2 + ((b : ℤ) - p.2.2) ^ 2

/-- The loop of `find_closest_palette_index`: state is `(min_dist, closest_idx)`
with `min_dist = none` standing for the initial `float('inf')`; `i` is the
index of the head of the remaining palette. -/
def fcpiGo (r g b : ℕ) : List B3 → ℕ → Option ℤ × ℕ → Option ℤ × ℕ
  | [], _, st => st
  | p :: rest, i, (best, closest) =>
    match best with
    | none => fcpiGo r g b rest (i + 1) (some (sqDist r g b p), i)
    | some m =>
      if sqDist r g b p < m then fcpiGo r g b rest (i + 1) (some (sqDist r g b p), i)
      else fcpiGo r g b rest (i + 1) (some m, closest)

/-- `find_closest_palette_index` from prepare.py (initial `closest_idx = 1`). -/
def find_closest_palette_index (r g b : ℕ) (palette : List B3) : ℕ :=
  (fcpiGo r g b palette 0 (none, 1)).2

/-- An RGB raster as a list of rows (numpy `(H, W, 3)` array of bytes). -/
abbrev BRaster := List (List B3)

/-- The float working buffer of the dither, with exact rationals for floats. -/
abbrev QRaster := List (List Q3)

/-- Read pixel `[y, x]` of a raster, with a default for out-of-range reads
(the Python code only reads in range). -/
def get2 (r : List (List α)) (d : α) (y x : ℕ) : α :=
  (r.getD y []).getD x d

/-- Write pixel `[y, x]` of a raster (no-op out of range, as `List.set`). -/
def set2 (r : List (List α)) (y x : ℕ) (v : α) : List (List α) :=
  r.set y ((r.getD y []).set x v)

/-- Componentwise sum of two float RGB triples. -/
def q3add (a b : Q3) : Q3 := (a.1 + b.1, a.2.1 + b.2.1, a.2.2 + b.2.2)

/-- Scale a float RGB triple by a factor (the `* weight / 16.0` steps). -/
def q3smul (c : ℚ) (a : Q3) : Q3 := (c * a.1, c * a.2.1, c * a.2.2)

/-- `int(np.clip(value, 0, 255))`: clip to `[0, 255]`, then truncate to int
(equal to the floor since the clipped value is nonnegative). -/
def clampByte (q : ℚ) : ℕ := (⌊max 0 (min q 255)⌋).toNat

/-- Add an error contribution into the working buffer at `[y, x]`
(`working[y, x] += err * weight`). -/
def addErr (w : QRaster) (y x : ℕ) (e : Q3) : QRaster :=
  set2 w y x (q3add (get2 w (0, 0, 0) y x) e)

/-- The index chosen for a (possibly error-carrying) working pixel: clamp each
channel to a byte, then search the MEASURED palette (prepare.py lines 176-181). -/
def chosenIndex (p : Q3) : ℕ :=
  find_closest_palette_index (clampByte p.1) (clampByte p.2.1) (clampByte p.2.2)
    PALETTE_MEASURED

/-- The residual error of a working pixel: clamped value minus the MEASURED
palette color at the chosen index (prepare.py lines 186-190). -/
def residual (p : Q3) : Q3 :=
  let mc := PALETTE_MEASURED.getD (chosenIndex p) (0, 0, 0)
  ((clampByte p.1 : ℚ) - mc.1, (clampByte p.2.1 : ℚ) - mc.2.1, (clampByte p.2.2 : ℚ) - mc.2.2)

/-- State of the Floyd–Steinberg loop: float working buffer and byte output. -/
structure DState where
  working : QRaster
  result : BRaster

/-- Error diffusion of one dither iteration at `(y, x)` (prepare.py lines
192-203): add the weighted measured residual to the four neighbors
(7/16 right, 3/16 below-left, 5/16 below, 1/16 below-right), skipping
out-of-range neighbors. -/
def ditherWorking (height width : ℕ) (wk : QRaster) (y x : ℕ) : QRaster :=
  let err := residual (get2 wk (0, 0, 0) y x)
  let w1 := if x + 1 < width then addErr wk y (x + 1) (q3smul (7 / 16) err) else wk
  if y + 1 < height then
    let wa := if 0 < x then addErr w1 (y + 1) (x - 1) (q3smul (3 / 16) err) else w1
    let wb := addErr wa (y + 1) x (q3smul (5 / 16) err)
    if x + 1 < width then addErr wb (y + 1) (x + 1) (q3smul (1 / 16) err) else wb
  else w1

/-- One iteration of the dither loop at position `(y, x)` (prepare.py lines
172-203): emit the THEORETICAL palette color at the index chosen against the
MEASURED palette, then diffuse the measured residual error. -/
def ditherStep (height width : ℕ) (s : DState) (pos : ℕ × ℕ) : DState :=
  let old := get2 s.working (0, 0, 0) pos.1 pos.2
  ⟨ditherWorking height width s.working pos.1 pos.2,
    set2 s.result pos.1 pos.2 (PALETTE_THEORETICAL.getD (chosenIndex old) (0, 0, 0))⟩

/-- Raster-order traversal (row-major, as the nested `for y ... for x` loops). -/
def rasterPositions (height width : ℕ) : List (ℕ × ℕ) :=
  (List.range height).flatMap (fun y => (List.range width).map (fun x => (y, x)))

/-- `floyd_steinberg_dither` from prepare.py: float working buffer initialized
from the input, output buffer initialized to zeros, then the raster-order
error-diffusion loop.  Returns the output raster. -/
def floyd_steinberg_dither (img : BRaster) : BRaster :=
  let height := img.length
  let width := (img.getD 0 []).length
  let working : QRaster :=
    img.map (List.map (fun p => ((p.1 : ℚ), (p.2.1 : ℚ), (p.2.2 : ℚ))))
  let result : BRaster := List.replicate height (List.replicate width (0, 0, 0))
  ((rasterPositions height width).foldl (ditherStep height width) ⟨working, result⟩).result

/-- Map a dithered pixel back to its palette index by exact RGB match against
the theoretical palette (prepare.py lines 301-308); the output array is
zero-initialized, so a pixel with no match keeps index 0. -/
def toIdx (p : B3) : ℕ :=
  (PALETTE_THEORETICAL.findIdx? (fun q => q == p)).getD 0

/-- The firmware remap (prepare.py line 326): `np.where(image_data < 4,
image_data, image_data + 1)` — codes 0-3 kept, 4 → 5, 5 → 6. -/
def remapIdx (v : ℕ) : ℕ := if v < 4 then v else v + 1

/-- Pack one row two pixels per byte (prepare.py line 330):
`colors = image_data[:, 1::2] + 16 * image_data[:, ::2]` — even column is the
high nibble, odd column the low nibble.  (The panel width is even; a trailing
odd pixel would be dropped.) -/
def packRow : List ℕ → List ℕ
  | a :: b :: rest => (b + 16 * a) :: packRow rest
  | _ => []

/-- Steps 2-5 of `convert_image_to_bin` (optimized path) after dynamic range
compression: dither, exact palette-index match, firmware remap, 4-bit pack,
row-major byte order (`colors.tobytes()`). -/
def convert_pipeline (compressed : BRaster) : List ℕ :=
  ((floyd_steinberg_dither compressed).map
    (fun row => packRow (row.map (fun p => remapIdx (toIdx p))))).flatten

/-- The output codes the firmware accepts (code 4 reserved/unused). -/
def nibbleSet : List ℕ := [0, 1, 2, 3, 5, 6]

/-- Both nibbles of a packed byte are legal firmware codes. -/
def nibbleOK (b : ℕ) : Bool := nibbleSet.contains (b / 16) && nibbleSet.contains (b % 16)

/-! ### prepare.py — gamma conversion and dynamic range compression (reals) -/

/-- `srgb_to_linear` from prepare.py: sRGB byte to linear light. -/
noncomputable def srgb_to_linear (v : ℕ) : ℝ :=
  if (v : ℝ) / 255 ≤ 0.04045 then ((v : ℝ) / 255) / 12.92
  else (((v : ℝ) / 255 + 0.055) / 1.055) ^ (2.4 : ℝ)

/-- `linear_to_srgb` from prepare.py: linear light to sRGB byte, with
`int(np.clip(s * 255.0 + 0.5, 0, 255))` modelled as the floor of the
clipped value (the clipped value is nonnegative). -/
noncomputable def linear_to_srgb (lv : ℝ) : ℕ :=
  if lv ≤ 0 then 0
  else if 1 ≤ lv then 255
  else
    (⌊min (max ((if lv ≤ 0.0031308 then 12.92 * lv
      else 1.055 * lv ^ ((1 : ℝ) / 2.4) - 0.055) * 255 + 0.5) 0) 255⌋).toNat

/-- Linear-light Rec.709 luminance of an sRGB byte triple, with the exact
coefficients used throughout `compress_dynamic_range`. -/
noncomputable def lumY (r g b : ℕ) : ℝ :=
  0.2126729 * srgb_to_linear r + 0.7151522 * srgb_to_linear g +
    0.0721750 * srgb_to_linear b

/-- Luminance of a linear RGB triple (same coefficients). -/
noncomputable def lumOf (t : ℝ × ℝ × ℝ) : ℝ :=
  0.2126729 * t.1 + 0.7151522 * t.2.1 + 0.0721750 * t.2.2

/-- `black_Y` of prepare.py lines 76-81: luminance of the palette's black. -/
noncomputable def blackY (pal : List B3) : ℝ :=
  lumY (pal.getD 0 (0, 0, 0)).1 (pal.getD 0 (0, 0, 0)).2.1 (pal.getD 0 (0, 0, 0)).2.2

/-- `white_Y` of prepare.py lines 83-85: luminance of the palette's white. -/
noncomputable def whiteY (pal : List B3) : ℝ :=
  lumY (pal.getD 1 (0, 0, 0)).1 (pal.getD 1 (0, 0, 0)).2.1 (pal.getD 1 (0, 0, 0)).2.2

/-- The per-pixel body of `compress_dynamic_range` (prepare.py lines 93-116),
up to the final sRGB re-encoding: affine luminance remap `black_Y +
Y * (white_Y - black_Y)` with proportional RGB rescale; near-black pixels
(`Y <= 1e-6`) collapse to `(black_Y, black_Y, black_Y)`. -/
noncomputable def compress_pixel_linear (pal : List B3) (p : B3) : ℝ × ℝ × ℝ :=
  let bY := blackY pal
  let Y := lumY p.1 p.2.1 p.2.2
  let compressedY := bY + Y * (whiteY pal - bY)
  if 1e-6 < Y then
    (srgb_to_linear p.1 * (compressedY / Y),
     srgb_to_linear p.2.1 * (compressedY / Y),
     srgb_to_linear p.2.2 * (compressedY / Y))
  else (bY, bY, bY)

/-- `compress_dynamic_range` from prepare.py: per-pixel compression followed
by re-encoding each channel with `linear_to_srgb`. -/
noncomputable def compress_dynamic_range (img : BRaster) (pal : List B3) : BRaster :=
  img.map (List.map (fun p =>
    (linear_to_srgb (compress_pixel_linear pal p).1,
     linear_to_srgb (compress_pixel_linear pal p).2.1,
     linear_to_srgb (compress_pixel_linear pal p).2.2)))

/-- `convert_image_to_bin` (optimized path, prepare.py lines 282-332) from
the decoded, resized and rotated RGB raster on: dynamic range compression
against the measured palette, Floyd–Steinberg dithering, exact palette-index
match, firmware remap, and 4-bit packing.  Decoding, resize/crop and
rotation (PIL calls) are modelled by quantifying over the raster they
produce. -/
noncomputable def convert_image_to_bin (img : BRaster) : List ℕ :=
  convert_pipeline (compress_dynamic_range img PALETTE_MEASURED)

/-! ### main.py — DailyImageManager -/

/-- One entry of `daily_images`: `{'id': str, 'path': str}`. -/
structure ImageEntry where
  id : String
  path : String
deriving DecidableEq

/-- The mutable fields of `DailyImageManager` relevant to its operations. -/
structure ManagerState where
  daily_images : List ImageEntry
  current_index : ℕ
  last_update_date : Option String
  updating : Bool
deriving DecidableEq

/-- Observable side effects of a manager operation, in program order:
`save` is a `save_state()` call, `spawnInitial` starts the `_update_image`
thread (fetch 3 images), `spawnSlot i` starts a `_fetch_image_for_slot(i)`
thread. -/
inductive MEvent where
  | save
  | spawnInitial
  | spawnSlot (slot : ℕ)
deriving DecidableEq

/-- `DailyImageManager.ensure_daily_image` (main.py lines 170-204):
return the successor state and the emitted events. -/
def ensure_daily_image (today : String) (s : ManagerState) : ManagerState × List MEvent :=
  if s.updating then (s, [])
  else if s.daily_images.length = 0 then
    ({ s with updating := true }, [MEvent.spawnInitial])
  else if s.last_update_date = some today then (s, [])
  else
    ({ s with updating := true, last_update_date := some today },
      [MEvent.save, MEvent.spawnSlot (s.daily_images.length - 1)])

/-- `DailyImageManager.handle_action` (main.py lines 206-241).  Python's `%`
on a possibly negative left operand is Euclidean, hence the `Int` modulo for
the `previous` branch. -/
def handle_action (action : String) (s : ManagerState) : ManagerState × List MEvent :=
  if s.daily_images.length = 0 then (s, [])
  else if action = "next" then
    let old := s.current_index
    let s1 := { s with current_index := (s.current_index + 1) % s.daily_images.length }
    if s.updating then (s1, [MEvent.save])
    else ({ s1 with updating := true }, [MEvent.save, MEvent.spawnSlot old])
  else if action = "previous" then
    ({ s with current_index :=
        (((s.current_index : ℤ) - 1) % (s.daily_images.length : ℤ)).toNat },
      [MEvent.save])
  else (s, [])

/-- Outcomes of `GET /api/image.bin` (main.py lines 322-345): `notFound` is
the 404 response, `indexError` the uncaught `IndexError` raised by
`daily_images[current_index]` when the index is out of range. -/
inductive GetErr where
  | notFound
  | indexError
deriving DecidableEq

/-- `get_image` (main.py lines 322-345), modelled up to the served payload:
returns the path of the bitmap file it serves.  `fileExists` models
`os.path.exists`. -/
def get_image (s : ManagerState) (fileExists : String → Bool) : Except GetErr String :=
  if s.daily_images.length = 0 then Except.error GetErr.notFound
  else
    match s.daily_images.get? s.current_index with
    | none => Except.error GetErr.indexError
    | some img => if fileExists img.path then Except.ok img.path
                  else Except.error GetErr.notFound

/-- The JSON contents of `state.json` on the successful-parse path of
`load_state` (main.py lines 64-82). -/
structure PersistedState where
  date : Option String
  images : List ImageEntry
  currentIndex : ℕ
deriving DecidableEq

/-- `DailyImageManager.load_state` (main.py lines 64-82): entries whose path
is falsy or whose file does not exist are filtered out; `currentIndex` is
taken from the file unchanged. -/
def load_state (fileExists : String → Bool) (p : PersistedState) : ManagerState :=
  { daily_images := p.images.filter (fun e => !(e.path == "") && fileExists e.path),
    current_index := p.currentIndex,
    last_update_date := p.date,
    updating := false }

/-! ### immich.py — candidate selection -/

/-- One search result: its asset id and, when the search response embeds a
`people` key, the ids of the people on it (`none` models an absent key). -/
structure Candidate where
  id : String
  people : Option (List String)
deriving DecidableEq

/-- The person ids considered for a candidate (immich.py lines 103-117):
use the embedded `people`; when the key is absent, fetch the asset detail
(`getInfo`), falling back to the empty list when that fails. -/
def candidatePeopleIds (getInfo : String → Option (List String)) (c : Candidate) :
    List String :=
  match c.people with
  | some ps => ps
  | none => (getInfo c.id).getD []

/-- The scan loop of `find_random_group_photo` (immich.py lines 103-123). -/
def fragpGo (person_ids : List String) (getInfo : String → Option (List String)) :
    List Candidate → Option Candidate
  | [] => none
  | c :: rest =>
    if person_ids.all (fun pid => (candidatePeopleIds getInfo c).contains pid) then some c
    else fragpGo person_ids getInfo rest

/-- `ImmichClient.find_random_group_photo` (immich.py lines 80-123), with the
post-`random.shuffle` candidate order passed in as `candidates`: return the
first candidate containing ALL the required people, else `None` (also when
the search returned no candidates). -/
def find_random_group_photo (person_ids : List String)
    (candidates : List Candidate) (getInfo : String → Option (List String)) :
    Option Candidate :=
  if candidates.isEmpty then none
  else fragpGo person_ids getInfo candidates

/-- Modelled from the spec (§4.3 "Fetch task", §8 "History exhaustion
reset"): selection that excludes `shownAssetIds` and, when the exclusion
yields no candidate, clears the set and retries once unfiltered.  No such
mechanism exists in the source; this definition exists only to be compared
against `find_random_group_photo`. -/
def spec_select_with_history (person_ids : List String)
    (candidates : List Candidate) (getInfo : String → Option (List String))
    (shown : List String) : Option Candidate :=
  match fragpGo person_ids getInfo
      (candidates.filter (fun c => !(shown.contains c.id))) with
  | some c => some c
  | none => fragpGo person_ids getInfo candidates

-- END DEFINITIONS (block 1)

end Taulu

namespace Taulu

/-- Invariant of the `find_closest_palette_index` loop once `min_dist` is set:
the final minimum does not exceed the incoming one nor any distance in the
remaining palette, and the final index either is the incoming one (with the
incoming minimum) or points into the remaining list at its distance. -/
theorem fcpiGo_some_spec (r g b : ℕ) (l : List B3) :
    ∀ (i : ℕ) (m : ℤ) (c : ℕ), ∃ m' c',
      fcpiGo r g b l i (some m, c) = (some m', c') ∧ m' ≤ m ∧
      (∀ j, j < l.length → m' ≤ sqDist r g b (l.getD j (0, 0, 0))) ∧
      ((c' = c ∧ m' = m) ∨
        ∃ k, k < l.length ∧ c' = i + k ∧ m' = sqDist r g b (l.getD k (0, 0, 0))) := by
  induction l with
  | nil =>
    intro i m c
    exact ⟨m, c, rfl, le_refl m, by intro j hj; simp at hj, Or.inl ⟨rfl, rfl⟩⟩
  | cons p rest ih =>
    intro i m c
    by_cases hlt : sqDist r g b p < m
    · obtain ⟨m', c', heq, hle, hall, hidx⟩ := ih (i + 1) (sqDist r g b p) i
      refine ⟨m', c', ?_, le_of_lt (lt_of_le_of_lt hle hlt), ?_, ?_⟩
      · simp [fcpiGo, hlt, heq]
      · intro j hj
        cases j with
        | zero => simpa using hle
        | succ j' => exact hall j' (by simpa using hj)
      · rcases hidx with ⟨hc, hm⟩ | ⟨k, hk, hc, hm⟩
        · exact Or.inr ⟨0, by simp, by omega, by simpa using hm⟩
        · exact Or.inr ⟨k + 1, by simpa using hk, by omega, by simpa using hm⟩
    · obtain ⟨m', c', heq, hle, hall, hidx⟩ := ih (i + 1) m c
      refine ⟨m', c', ?_, hle, ?_, ?_⟩
      · simp [fcpiGo, hlt, heq]
      · intro j hj
        cases j with
        | zero => simpa using le_trans hle (not_lt.mp hlt)
        | succ j' => exact hall j' (by simpa using hj)
      · rcases hidx with ⟨hc, hm⟩ | ⟨k, hk, hc, hm⟩
        · exact Or.inl ⟨hc, hm⟩
        · exact Or.inr ⟨k + 1, by simpa using hk, by omega, by simpa using hm⟩

/-- `find_closest_palette_index` returns an in-range index that minimizes the
squared RGB distance over the (nonempty) palette. -/
theorem find_closest_spec (r g b : ℕ) (palette : List B3) (hpal : palette ≠ []) :
    find_closest_palette_index r g b palette < palette.length ∧
    ∀ j, j < palette.length →
      sqDist r g b (palette.getD (find_closest_palette_index r g b palette) (0, 0, 0)) ≤
        sqDist r g b (palette.getD j (0, 0, 0)) := by
  cases palette with
  | nil => exact absurd rfl hpal
  | cons p rest =>
    obtain ⟨m', c', heq, hle, hall, hidx⟩ := fcpiGo_some_spec r g b rest 1 (sqDist r g b p) 0
    have hfc : find_closest_palette_index r g b (p :: rest) = c' := by
      simp [find_closest_palette_index, fcpiGo, heq]
    rcases hidx with ⟨hc, hm⟩ | ⟨k, hk, hc, hm⟩
    · subst hc
      constructor
      · simp [hfc]
      · intro j hj
        rw [hfc]
        cases j with
        | zero => simp [hm]
        | succ j' =>
          have := hall j' (by simpa using hj)
          simpa [hm] using this
    · constructor
      · rw [hfc, hc]
        simp only [List.length_cons]
        omega
      · intro j hj
        rw [hfc, hc]
        rw [show (1 + k : ℕ) = k + 1 by omega]
        rw [show ((p :: rest).getD (k + 1) (0, 0, 0)) = rest.getD k (0, 0, 0) by simp]
        cases j with
        | zero => rw [← hm]; simpa using hle
        | succ j' =>
          rw [← hm]
          exact hall j' (by simpa using hj)

theorem getD_set_cases (l : List α) (i j : ℕ) (a d : α) :
    (l.set i a).getD j d = a ∨ (l.set i a).getD j d = l.getD j d := by
  induction l generalizing i j with
  | nil => right; simp
  | cons x t ih =>
    cases i with
    | zero =>
      cases j with
      | zero => left; simp
      | succ j' => right; simp
    | succ i' =>
      cases j with
      | zero => right; simp
      | succ j' => simpa using ih i' j'

theorem getD_set_eq (l : List α) (i : ℕ) (a d : α) (h : i < l.length) :
    (l.set i a).getD i d = a := by
  induction l generalizing i with
  | nil => simp at h
  | cons x t ih =>
    cases i with
    | zero => simp
    | succ i' => simpa using ih i' (by simpa using h)

theorem getD_set_ne (l : List α) (i j : ℕ) (a d : α) (h : i ≠ j) :
    (l.set i a).getD j d = l.getD j d := by
  induction l generalizing i j with
  | nil => simp
  | cons x t ih =>
    cases i with
    | zero =>
      cases j with
      | zero => exact absurd rfl h
      | succ j' => simp
    | succ i' =>
      cases j with
      | zero => simp
      | succ j' => simpa using ih i' j' (by omega)

theorem get2_set2_cases (r : List (List α)) (y x : ℕ) (v d : α) (y2 x2 : ℕ) :
    get2 (set2 r y x v) d y2 x2 = v ∨ get2 (set2 r y x v) d y2 x2 = get2 r d y x2 ∨
      get2 (set2 r y x v) d y2 x2 = get2 r d y2 x2 := by
  unfold get2 set2
  rcases getD_set_cases r y y2 ((r.getD y []).set x v) [] with h1 | h1
  · rw [h1]
    rcases getD_set_cases (r.getD y []) x x2 v d with h2 | h2
    · exact Or.inl h2
    · exact Or.inr (Or.inl h2)
  · rw [h1]
    exact Or.inr (Or.inr rfl)

theorem get2_set2_self (r : List (List α)) (y x : ℕ) (v d : α)
    (hy : y < r.length) (hx : x < (r.getD y []).length) :
    get2 (set2 r y x v) d y x = v := by
  unfold get2 set2
  rw [getD_set_eq r y _ [] hy, getD_set_eq _ x v d hx]

theorem get2_set2_ne (r : List (List α)) (y x : ℕ) (v d : α) (y2 x2 : ℕ)
    (h : y ≠ y2 ∨ x ≠ x2) :
    get2 (set2 r y x v) d y2 x2 = get2 r d y2 x2 := by
  unfold get2 set2
  by_cases hy : y = y2
  · subst hy
    rcases h with h | h
    · exact absurd rfl h
    · rcases getD_set_cases r y y ((r.getD y []).set x v) [] with h1 | h1
      · rw [h1, getD_set_ne _ x x2 v d h]
      · rw [h1]
  · rw [getD_set_ne r y y2 _ [] hy]

theorem getD_replicate_idx (n : ℕ) (a d : α) (i : ℕ) :
    (List.replicate n a).getD i d = if i < n then a else d := by
  induction n generalizing i with
  | zero => simp
  | succ m ih =>
    cases i with
    | zero => simp
    | succ i' =>
      rw [List.replicate_succ]
      simpa using ih i'

theorem theoretical_getD_mem (idx : ℕ) :
    PALETTE_THEORETICAL.getD idx (0, 0, 0) ∈ PALETTE_THEORETICAL := by
  rcases Nat.lt_or_ge idx 6 with h | h
  · interval_cases idx <;> decide
  · have hd : PALETTE_THEORETICAL.getD idx (0, 0, 0) = (0, 0, 0) := by
      unfold PALETTE_THEORETICAL
      apply List.getD_eq_default
      simpa using h
    rw [hd]; decide

theorem ditherStep_preserves_palette (h w : ℕ) (s : DState) (pos : ℕ × ℕ)
    (H : ∀ y x, get2 s.result (0, 0, 0) y x ∈ PALETTE_THEORETICAL) :
    ∀ y x, get2 (ditherStep h w s pos).result (0, 0, 0) y x ∈ PALETTE_THEORETICAL := by
  intro y x
  show get2 (set2 s.result pos.1 pos.2 _) (0, 0, 0) y x ∈ PALETTE_THEORETICAL
  rcases get2_set2_cases s.result pos.1 pos.2
      (PALETTE_THEORETICAL.getD (chosenIndex (get2 s.working (0, 0, 0) pos.1 pos.2)) (0, 0, 0))
      (0, 0, 0) y x with h1 | h1 | h1
  · rw [h1]; exact theoretical_getD_mem _
  · rw [h1]; exact H pos.1 x
  · rw [h1]; exact H y x

theorem dither_foldl_preserves_palette (h w : ℕ) (ps : List (ℕ × ℕ)) :
    ∀ (s : DState), (∀ y x, get2 s.result (0, 0, 0) y x ∈ PALETTE_THEORETICAL) →
      ∀ y x, get2 ((ps.foldl (ditherStep h w) s)).result (0, 0, 0) y x ∈ PALETTE_THEORETICAL := by
  induction ps with
  | nil => intro s H y x; exact H y x
  | cons p rest ih =>
    intro s H y x
    exact ih (ditherStep h w s p) (ditherStep_preserves_palette h w s p H) y x

/-- Every pixel of the dither output (in range or not, the out-of-range default
being black) is one of the six theoretical palette colors. -/
theorem dither_mem_palette (img : BRaster) (y x : ℕ) :
    get2 (floyd_steinberg_dither img) (0, 0, 0) y x ∈ PALETTE_THEORETICAL := by
  unfold floyd_steinberg_dither
  apply dither_foldl_preserves_palette
  intro y' x'
  unfold get2
  rw [getD_replicate_idx]
  by_cases hy : y' < img.length
  · rw [if_pos hy, getD_replicate_idx]
    by_cases hx : x' < (img.getD 0 []).length
    · rw [if_pos hx]; decide
    · rw [if_neg hx]; decide
  · rw [if_neg hy]; simp; decide

theorem get2_addErr_row_ne (w : QRaster) (y1 x1 : ℕ) (e d : Q3) (y2 x2 : ℕ)
    (h : y1 ≠ y2) : get2 (addErr w y1 x1 e) d y2 x2 = get2 w d y2 x2 := by
  unfold addErr
  exact get2_set2_ne w y1 x1 _ d y2 x2 (Or.inl h)

theorem get2_addErr_self (w : QRaster) (y x : ℕ) (e d : Q3)
    (h1 : y < w.length) (h2 : x < (w.getD y []).length) :
    get2 (addErr w y x e) d y x = q3add (get2 w (0, 0, 0) y x) e := by
  unfold addErr
  exact get2_set2_self w y x _ d h1 h2

/-- The right neighbor `working[y, x+1]` receives exactly the old value plus
`7/16` of the measured residual at `(y, x)`. -/
theorem ditherWorking_right (H W : ℕ) (wk : QRaster) (y x : ℕ) (hx1 : x + 1 < W)
    (h1 : y < wk.length) (h2 : x + 1 < (wk.getD y []).length) :
    get2 (ditherWorking H W wk y x) (0, 0, 0) y (x + 1) =
      q3add (get2 wk (0, 0, 0) y (x + 1))
        (q3smul (7 / 16) (residual (get2 wk (0, 0, 0) y x))) := by
  simp only [ditherWorking, if_pos hx1]
  by_cases hy1 : y + 1 < H
  · rw [if_pos hy1]
    by_cases h0 : 0 < x
    · rw [if_pos h0, get2_addErr_row_ne _ _ _ _ _ _ _ (by omega),
        get2_addErr_row_ne _ _ _ _ _ _ _ (by omega),
        get2_addErr_row_ne _ _ _ _ _ _ _ (by omega),
        get2_addErr_self _ _ _ _ _ h1 h2]
    · rw [if_neg h0, get2_addErr_row_ne _ _ _ _ _ _ _ (by omega),
        get2_addErr_row_ne _ _ _ _ _ _ _ (by omega),
        get2_addErr_self _ _ _ _ _ h1 h2]
  · rw [if_neg hy1, get2_addErr_self _ _ _ _ _ h1 h2]

/-- C1: every pixel of the output raster of `floyd_steinberg_dither` is
exactly one of the 6 theoretical-palette entries, while at each step the
nearest-color decision minimizes squared distance over the MEASURED palette
and the diffused residual error is taken against the MEASURED entry at the
chosen index (shown here for the 7/16 right-neighbor update; `residual` is
clamped-value minus measured color at `chosenIndex`). -/
theorem floyd_steinberg_dither_palette_exact_and_measured_decision
    (img : BRaster) (y x : ℕ)
    (hy : y < img.length) (hx : x < (img.getD 0 []).length) :
    get2 (floyd_steinberg_dither img) (0, 0, 0) y x ∈ PALETTE_THEORETICAL ∧
    (∀ p : Q3,
      chosenIndex p < PALETTE_MEASURED.length ∧
      ∀ j, j < PALETTE_MEASURED.length →
        sqDist (clampByte p.1) (clampByte p.2.1) (clampByte p.2.2)
            (PALETTE_MEASURED.getD (chosenIndex p) (0, 0, 0)) ≤
          sqDist (clampByte p.1) (clampByte p.2.1) (clampByte p.2.2)
            (PALETTE_MEASURED.getD j (0, 0, 0))) ∧
    (∀ (H W : ℕ) (s : DState), y < s.result.length → x < (s.result.getD y []).length →
      get2 (ditherStep H W s (y, x)).result (0, 0, 0) y x =
        PALETTE_THEORETICAL.getD (chosenIndex (get2 s.working (0, 0, 0) y x)) (0, 0, 0)) ∧
    (∀ (H W : ℕ) (s : DState), x + 1 < W → y < s.working.length →
      x + 1 < (s.working.getD y []).length →
      get2 (ditherStep H W s (y, x)).working (0, 0, 0) y (x + 1) =
        q3add (get2 s.working (0, 0, 0) y (x + 1))
          (q3smul (7 / 16) (residual (get2 s.working (0, 0, 0) y x)))) := by
  refine ⟨dither_mem_palette img y x, ?_, ?_, ?_⟩
  · intro p
    have h := find_closest_spec (clampByte p.1) (clampByte p.2.1) (clampByte p.2.2)
      PALETTE_MEASURED (by decide)
    exact ⟨h.1, h.2⟩
  · intro H W s h1 h2
    exact get2_set2_self s.result y x _ (0, 0, 0) h1 h2
  · intro H W s hx1 h1 h2
    exact ditherWorking_right H W s.working y x hx1 h1 h2

/-- Witness for C1 at a concrete 1×1 image. -/
theorem floyd_steinberg_dither_palette_exact_witness :
    get2 (floyd_steinberg_dither [[(7, 200, 13)]]) (0, 0, 0) 0 0 ∈ PALETTE_THEORETICAL :=
  (floyd_steinberg_dither_palette_exact_and_measured_decision [[(7, 200, 13)]] 0 0
    (by decide) (by decide)).1

theorem getD_eq_getElem_of_lt (l : List α) (d : α) (i : ℕ) (h : i < l.length) :
    l.getD i d = l[i] := by
  induction l generalizing i with
  | nil => simp at h
  | cons a t ih =>
    cases i with
    | zero => rfl
    | succ i2 => simpa using ih i2 (by simpa using h)

/-- Every element of every row of the dither output is a theoretical color. -/
theorem dither_row_mem_palette (img : BRaster) {row : List B3} {p : B3}
    (hrow : row ∈ floyd_steinberg_dither img) (hp : p ∈ row) :
    p ∈ PALETTE_THEORETICAL := by
  obtain ⟨y, hy, hyeq⟩ := List.mem_iff_getElem.mp hrow
  obtain ⟨x, hx, hxeq⟩ := List.mem_iff_getElem.mp hp
  have hg : get2 (floyd_steinberg_dither img) (0, 0, 0) y x = p := by
    unfold get2
    rw [getD_eq_getElem_of_lt _ _ _ hy, hyeq, getD_eq_getElem_of_lt _ _ _ hx, hxeq]
  rw [← hg]
  exact dither_mem_palette img y x

/-- A theoretical-palette color maps, after exact index match and the
firmware remap, to a legal output code. -/
theorem remap_toIdx_mem_nibbleSet {p : B3} (hp : p ∈ PALETTE_THEORETICAL) :
    remapIdx (toIdx p) ∈ nibbleSet := by
  fin_cases hp <;> decide

/-- Both nibbles of a packed byte built from two legal codes are legal. -/
theorem nibbleOK_of_codes {a c : ℕ} (ha : a ∈ nibbleSet) (hc : c ∈ nibbleSet) :
    nibbleOK (c + 16 * a) = true := by
  fin_cases ha <;> fin_cases hc <;> decide

/-- Packing a row of legal codes yields bytes whose nibbles are legal. -/
theorem packRow_nibbleOK :
    ∀ (n : ℕ) (l : List ℕ), l.length ≤ n → (∀ v ∈ l, v ∈ nibbleSet) →
      ∀ b ∈ packRow l, nibbleOK b = true := by
  intro n
  induction n with
  | zero =>
    intro l hl _ b hb
    cases l with
    | nil => simp [packRow] at hb
    | cons a t => simp at hl
  | succ m ih =>
    intro l hl hv b hb
    match l with
    | [] => simp [packRow] at hb
    | [a] => simp [packRow] at hb
    | a :: c :: rest =>
      rw [packRow] at hb
      rcases List.mem_cons.mp hb with hb1 | hb2
      · rw [hb1]
        exact nibbleOK_of_codes (hv a (by simp)) (hv c (by simp))
      · exact ih rest (by simp at hl; omega)
          (fun v hv2 => hv v (by simp [hv2])) b hb2

/-- Nibble invariant for the packing pipeline on ANY compressed raster. -/
theorem convert_pipeline_nibbleOK (compressed : BRaster) :
    (convert_pipeline compressed).all nibbleOK = true := by
  rw [List.all_eq_true]
  intro b hb
  unfold convert_pipeline at hb
  rw [List.mem_flatten] at hb
  obtain ⟨bs, hbs, hbbs⟩ := hb
  rw [List.mem_map] at hbs
  obtain ⟨row, hrow, hrowEq⟩ := hbs
  rw [← hrowEq] at hbbs
  refine packRow_nibbleOK (row.map (fun p => remapIdx (toIdx p))).length _ le_rfl ?_ b hbbs
  intro v hv
  rw [List.mem_map] at hv
  obtain ⟨p, hp, hpEq⟩ := hv
  rw [← hpEq]
  exact remap_toIdx_mem_nibbleSet (dither_row_mem_palette compressed hrow hp)

theorem srgb_to_linear_nonneg (v : ℕ) : 0 ≤ srgb_to_linear v := by
  unfold srgb_to_linear
  split
  · positivity
  · exact Real.rpow_nonneg (by positivity) _

theorem srgb_to_linear_zero : srgb_to_linear 0 = 0 := by
  unfold srgb_to_linear
  rw [if_pos (by norm_num)]
  norm_num

theorem srgb_to_linear_ten : srgb_to_linear 10 = 50 / 16473 := by
  unfold srgb_to_linear
  rw [if_pos (by norm_num)]
  norm_num

theorem srgb_to_linear_two : srgb_to_linear 2 = 10 / 16473 := by
  unfold srgb_to_linear
  rw [if_pos (by norm_num)]
  norm_num

/-- Any nonzero byte has linear light at least `5/16473` (≈ 3.03e-4): the
linear branch gives at least `(1/255)/12.92`, and the power branch at least
`((0.04045 + 0.055)/1.055)^2.4 ≥ (1909/21100)^3`. -/
theorem srgb_to_linear_lb (v : ℕ) (h1 : 1 ≤ v) (h2 : v ≤ 255) :
    (5 : ℝ) / 16473 ≤ srgb_to_linear v := by
  unfold srgb_to_linear
  have hv1 : (1 : ℝ) ≤ (v : ℝ) := by exact_mod_cast h1
  by_cases h : (v : ℝ) / 255 ≤ 0.04045
  · rw [if_pos h]
    rw [div_div, le_div_iff₀ (by norm_num)]
    nlinarith
  · rw [if_neg h]
    push_neg at h
    set b : ℝ := ((v : ℝ) / 255 + 0.055) / 1.055 with hb
    have hv255 : (v : ℝ) ≤ 255 := by exact_mod_cast h2
    have hb0 : 0 < b := by rw [hb]; positivity
    have hb1 : b ≤ 1 := by
      rw [hb, div_le_one (by norm_num)]
      nlinarith
    have hmono : b ^ (3 : ℝ) ≤ b ^ (2.4 : ℝ) :=
      Real.rpow_le_rpow_of_exponent_ge hb0 hb1 (by norm_num)
    have hnat : b ^ (3 : ℝ) = b ^ (3 : ℕ) := by
      rw [show (3 : ℝ) = ((3 : ℕ) : ℝ) by norm_num, Real.rpow_natCast]
    have hblb : (1909 : ℝ) / 21100 ≤ b := by
      rw [hb, le_div_iff₀ (by norm_num)]
      nlinarith
    have hcube : ((1909 : ℝ) / 21100) ^ (3 : ℕ) ≤ b ^ (3 : ℕ) :=
      pow_le_pow_left₀ (by norm_num) hblb 3
    have : (5 : ℝ) / 16473 ≤ ((1909 : ℝ) / 21100) ^ (3 : ℕ) := by norm_num
    calc (5 : ℝ) / 16473 ≤ ((1909 : ℝ) / 21100) ^ (3 : ℕ) := this
      _ ≤ b ^ (3 : ℕ) := hcube
      _ = b ^ (3 : ℝ) := hnat.symm
      _ ≤ b ^ (2.4 : ℝ) := hmono

/-- The measured white channel value 200 has linear light at least
`(8561/10761)^3 ≈ 0.5035`. -/
theorem srgb_to_linear_200_lb : ((8561 : ℝ) / 10761) ^ (3 : ℕ) ≤ srgb_to_linear 200 := by
  unfold srgb_to_linear
  rw [if_neg (by norm_num)]
  have hb : (((200 : ℕ) : ℝ) / 255 + 0.055) / 1.055 = (8561 : ℝ) / 10761 := by norm_num
  rw [hb]
  have hmono : ((8561 : ℝ) / 10761) ^ (3 : ℝ) ≤ ((8561 : ℝ) / 10761) ^ (2.4 : ℝ) :=
    Real.rpow_le_rpow_of_exponent_ge (by norm_num) (by norm_num) (by norm_num)
  have hnat : ((8561 : ℝ) / 10761) ^ (3 : ℝ) = ((8561 : ℝ) / 10761) ^ (3 : ℕ) := by
    rw [show (3 : ℝ) = ((3 : ℕ) : ℝ) by norm_num, Real.rpow_natCast]
  rw [← hnat]
  exact hmono

theorem lumY_nonneg (r g b : ℕ) : 0 ≤ lumY r g b := by
  unfold lumY
  have h1 := srgb_to_linear_nonneg r
  have h2 := srgb_to_linear_nonneg g
  have h3 := srgb_to_linear_nonneg b
  nlinarith

theorem lumY_zero_eq : lumY 0 0 0 = 0 := by
  unfold lumY
  rw [srgb_to_linear_zero]
  ring

/-- Exact luminance of the measured black `(2, 2, 2)` (linear branch, so the
value is rational: the coefficient sum `1.0000001` times `10/16473`). -/
theorem blackY_measured_eq : blackY PALETTE_MEASURED = 10000001 / 16473000000 := by
  unfold blackY PALETTE_MEASURED
  simp only [List.getD_cons_zero]
  unfold lumY
  rw [srgb_to_linear_two]
  norm_num

/-- The measured white `(190, 200, 200)` has luminance at least `7/20`. -/
theorem whiteY_measured_lb : (7 : ℝ) / 20 ≤ whiteY PALETTE_MEASURED := by
  unfold whiteY PALETTE_MEASURED
  simp only [List.getD_cons_succ, List.getD_cons_zero]
  unfold lumY
  have h190 := srgb_to_linear_nonneg 190
  have h200 := srgb_to_linear_200_lb
  nlinarith

/-- The display range `white_Y - black_Y` of the measured palette is at
least `1/4`. -/
theorem range_measured_lb :
    (1 : ℝ) / 4 ≤ whiteY PALETTE_MEASURED - blackY PALETTE_MEASURED := by
  have h1 := whiteY_measured_lb
  have h2 := blackY_measured_eq
  rw [h2]
  linarith

/-- A byte pixel that is not pure black has luminance at least `1/50000`
(so in particular above the `1e-6` near-black threshold). -/
theorem lumY_lb_of_ne (r g b : ℕ) (hr : r ≤ 255) (hg : g ≤ 255) (hb : b ≤ 255)
    (hne : ¬(r = 0 ∧ g = 0 ∧ b = 0)) : (1 : ℝ) / 50000 ≤ lumY r g b := by
  have h1 : 1 ≤ r ∨ 1 ≤ g ∨ 1 ≤ b := by omega
  unfold lumY
  have hnr := srgb_to_linear_nonneg r
  have hng := srgb_to_linear_nonneg g
  have hnb := srgb_to_linear_nonneg b
  rcases h1 with h | h | h
  · have := srgb_to_linear_lb r h hr
    nlinarith
  · have := srgb_to_linear_lb g h hg
    nlinarith
  · have := srgb_to_linear_lb b h hb
    nlinarith

/-- On the scaling branch, the output luminance is exactly the affine remap
`black_Y + Y * (white_Y - black_Y)` of the input luminance. -/
theorem compress_lumOf_affine (pal : List B3) (q : B3)
    (h : (1e-6 : ℝ) < lumY q.1 q.2.1 q.2.2) :
    lumOf (compress_pixel_linear pal q) =
      blackY pal + lumY q.1 q.2.1 q.2.2 * (whiteY pal - blackY pal) := by
  have hne : lumY q.1 q.2.1 q.2.2 ≠ 0 := by
    have : (0 : ℝ) < lumY q.1 q.2.1 q.2.2 := lt_trans (by norm_num) h
    exact ne_of_gt this
  unfold compress_pixel_linear
  rw [if_pos h]
  unfold lumOf
  simp only
  unfold lumY at *
  field_simp
  ring

/-- On the near-black branch, the pixel collapses to the display's black
point `(black_Y, black_Y, black_Y)`. -/
theorem compress_black_point (pal : List B3) (q : B3)
    (h : lumY q.1 q.2.1 q.2.2 ≤ (1e-6 : ℝ)) :
    compress_pixel_linear pal q = (blackY pal, blackY pal, blackY pal) := by
  unfold compress_pixel_linear
  rw [if_neg (not_lt.mpr h)]

/-- C3 counterexample: on a date change with three filled slots and
`current_index = 1`, `ensure_daily_image` leaves `current_index` at 1 (the
claim says it is reset to 0), and the only fetch it starts is for the LAST
slot (index 2) — there is no `nextDaily` swap into slot 0 and no fetch of
every empty slot. -/
theorem ensure_daily_image_no_slot0_swap_counterexample :
    (ensure_daily_image "2025-01-02"
        ⟨[⟨"a", "pa"⟩, ⟨"b", "pb"⟩, ⟨"c", "pc"⟩], 1, some "2025-01-01", false⟩).1.current_index
      = 1 ∧
    (ensure_daily_image "2025-01-02"
        ⟨[⟨"a", "pa"⟩, ⟨"b", "pb"⟩, ⟨"c", "pc"⟩], 1, some "2025-01-01", false⟩).2
      = [MEvent.save, MEvent.spawnSlot 2] := by
  constructor <;> decide

/-- C3 amended: when images exist, no update is in flight, and the stored
date differs from today, `ensure_daily_image` marks `updating`, stores
today's date, persists, and schedules one background fetch for the last
slot (index N-1); `current_index` and the slots are untouched. -/
theorem ensure_daily_image_day_change_behavior (s : ManagerState) (today : String)
    (h1 : s.updating = false) (h2 : s.daily_images.length ≠ 0)
    (h3 : s.last_update_date ≠ some today) :
    ensure_daily_image today s =
      ({ s with updating := true, last_update_date := some today },
        [MEvent.save, MEvent.spawnSlot (s.daily_images.length - 1)]) := by
  simp [ensure_daily_image, h1, h2, h3]

/-- Witness for C3's amended theorem at a concrete state. -/
theorem ensure_daily_image_day_change_witness :
    ensure_daily_image "2025-01-02" ⟨[⟨"a", "pa"⟩], 0, some "2025-01-01", false⟩ =
      (⟨[⟨"a", "pa"⟩], 0, some "2025-01-02", true⟩, [MEvent.save, MEvent.spawnSlot 0]) := by
  have h := ensure_daily_image_day_change_behavior
    ⟨[⟨"a", "pa"⟩], 0, some "2025-01-01", false⟩ "2025-01-02" rfl (by decide) (by decide)
  exact h

/-- C4 counterexample: with three filled slots, `current_index = 0` and no
update in flight, `next` advances the index to 1 but schedules a refresh of
slot 0 (the vacated slot) — not of slot 1, and slot 0 is not exempt. -/
theorem handle_action_next_schedules_vacated_slot_counterexample :
    (handle_action "next"
        ⟨[⟨"a", "pa"⟩, ⟨"b", "pb"⟩, ⟨"c", "pc"⟩], 0, some "2025-01-01", false⟩).1.current_index
      = 1 ∧
    (handle_action "next"
        ⟨[⟨"a", "pa"⟩, ⟨"b", "pb"⟩, ⟨"c", "pc"⟩], 0, some "2025-01-01", false⟩).2
      = [MEvent.save, MEvent.spawnSlot 0] ∧
    MEvent.spawnSlot 1 ∉
      (handle_action "next"
        ⟨[⟨"a", "pa"⟩, ⟨"b", "pb"⟩, ⟨"c", "pc"⟩], 0, some "2025-01-01", false⟩).2 := by
  refine ⟨by decide, by decide, by decide⟩

/-- C4 amended: on a non-empty list, `next` advances `current_index` by one
modulo N and persists; when no update is in flight it schedules a background
refresh of the VACATED slot (the old `current_index`, which may be 0), and
when an update is in flight it schedules nothing. -/
theorem handle_action_next_behavior (s : ManagerState)
    (h : s.daily_images.length ≠ 0) :
    (handle_action "next" s).1.current_index =
      (s.current_index + 1) % s.daily_images.length ∧
    (s.updating = false →
      (handle_action "next" s).2 = [MEvent.save, MEvent.spawnSlot s.current_index]) ∧
    (s.updating = true → (handle_action "next" s).2 = [MEvent.save]) := by
  refine ⟨?_, ?_, ?_⟩
  · cases hu : s.updating <;> simp [handle_action, h, hu]
  · intro hu; simp [handle_action, h, hu]
  · intro hu; simp [handle_action, h, hu]

/-- Witness for C4's amended theorem at a concrete state. -/
theorem handle_action_next_behavior_witness :
    (handle_action "next" ⟨[⟨"a", "pa"⟩, ⟨"b", "pb"⟩], 1, none, false⟩).1.current_index = 0 ∧
    (handle_action "next" ⟨[⟨"a", "pa"⟩, ⟨"b", "pb"⟩], 1, none, false⟩).2 =
      [MEvent.save, MEvent.spawnSlot 1] := by
  have h := handle_action_next_behavior ⟨[⟨"a", "pa"⟩, ⟨"b", "pb"⟩], 1, none, false⟩ (by decide)
  exact ⟨h.1, h.2.1 rfl⟩

/-- C5 counterexample: one filled slot whose file exists, `current_index = 1`
(out of range, reachable after a restart discards a trailing entry): the
claim requires falling back to slot 0's bitmap `"pa"`, but the code raises
`IndexError` instead of serving anything. -/
theorem get_image_no_slot0_fallback_counterexample :
    get_image ⟨[⟨"a", "pa"⟩], 1, none, false⟩ (fun p => p == "pa") =
      Except.error GetErr.indexError ∧
    get_image ⟨[⟨"a", "pa"⟩], 1, none, false⟩ (fun p => p == "pa") ≠
      Except.ok "pa" := by
  constructor
  · rfl
  · have h1 : get_image ⟨[⟨"a", "pa"⟩], 1, none, false⟩ (fun p => p == "pa") =
        Except.error GetErr.indexError := rfl
    rw [h1]
    simp

/-- C5 amended: `get_image` serves the bitmap at `current_index` with NO
fallback to slot 0: 404 iff the list is empty or the backing file of the
entry at `current_index` is missing; an out-of-range `current_index` on a
non-empty list raises `IndexError`. -/
theorem get_image_behavior (s : ManagerState) (fileExists : String → Bool) :
    (s.daily_images = [] → get_image s fileExists = Except.error GetErr.notFound) ∧
    (∀ h : s.current_index < s.daily_images.length,
      get_image s fileExists =
        if fileExists ((s.daily_images.get ⟨s.current_index, h⟩).path) then
          Except.ok (s.daily_images.get ⟨s.current_index, h⟩).path
        else Except.error GetErr.notFound) ∧
    (s.daily_images ≠ [] → s.daily_images.length ≤ s.current_index →
      get_image s fileExists = Except.error GetErr.indexError) := by
  refine ⟨?_, ?_, ?_⟩
  · intro h; simp [get_image, h]
  · intro h
    have hne : ¬s.daily_images.length = 0 := by
      intro hc; rw [hc] at h; exact Nat.not_lt_zero _ h
    have hget : s.daily_images[s.current_index]? = some s.daily_images[s.current_index] :=
      List.getElem?_eq_getElem h
    simp [get_image, hne, hget]
  · intro h1 h2
    have hne : ¬s.daily_images.length = 0 := by
      intro hc; exact h1 (List.length_eq_zero.mp hc)
    have hget : s.daily_images[s.current_index]? = none := List.getElem?_eq_none h2
    simp [get_image, hne, hget]

/-- Witness for C5's amended theorem at a concrete state. -/
theorem get_image_behavior_witness :
    get_image ⟨[⟨"a", "pa"⟩], 0, none, false⟩ (fun p => p == "pa") = Except.ok "pa" := by
  have h := (get_image_behavior ⟨[⟨"a", "pa"⟩], 0, none, false⟩ (fun p => p == "pa")).2.1
    (by decide)
  simpa using h

/-- C6 (code bug): loading a persisted state whose `currentIndex` is 2 while
the third entry's file is missing yields 2 surviving images but keeps
`current_index = 2`, violating `0 ≤ currentIndex < N` right after startup
(`daily_images[current_index]` then raises `IndexError` in the serving
paths). -/
theorem load_state_index_out_of_range :
    (load_state (fun p => p == "pa" || p == "pb")
        ⟨some "2025-01-01", [⟨"a", "pa"⟩, ⟨"b", "pb"⟩, ⟨"c", "pc"⟩], 2⟩).daily_images.length
      = 2 ∧
    (load_state (fun p => p == "pa" || p == "pb")
        ⟨some "2025-01-01", [⟨"a", "pa"⟩, ⟨"b", "pb"⟩, ⟨"c", "pc"⟩], 2⟩).current_index = 2 ∧
    ¬ (load_state (fun p => p == "pa" || p == "pb")
        ⟨some "2025-01-01", [⟨"a", "pa"⟩, ⟨"b", "pb"⟩, ⟨"c", "pc"⟩], 2⟩).current_index <
      (load_state (fun p => p == "pa" || p == "pb")
        ⟨some "2025-01-01", [⟨"a", "pa"⟩, ⟨"b", "pb"⟩, ⟨"c", "pc"⟩], 2⟩).daily_images.length := by
  refine ⟨by decide, by decide, by decide⟩

/-- C7 counterexample: with two candidates A and B both containing the
required person and A already served (`shown = ["A"]`), the code returns A
again — selection takes no history parameter at all — whereas the
spec-modelled selection with `shownAssetIds` exclusion returns B. -/
theorem find_random_group_photo_no_history_counterexample :
    find_random_group_photo ["P"] [⟨"A", some ["P"]⟩, ⟨"B", some ["P"]⟩] (fun _ => none) =
      some ⟨"A", some ["P"]⟩ ∧
    spec_select_with_history ["P"] [⟨"A", some ["P"]⟩, ⟨"B", some ["P"]⟩] (fun _ => none)
        ["A"] = some ⟨"B", some ["P"]⟩ := by
  constructor <;> decide

/-- C7 amended: `find_random_group_photo` simply returns the first candidate
(in the given, post-shuffle order) whose people contain all required ids —
no exclusion of previously served assets, no history reset or retry exists. -/
theorem find_random_group_photo_first_match (person_ids : List String)
    (candidates : List Candidate) (getInfo : String → Option (List String)) :
    find_random_group_photo person_ids candidates getInfo =
      candidates.find?
        (fun c => person_ids.all (fun pid => (candidatePeopleIds getInfo c).contains pid)) := by
  have hgo : ∀ l : List Candidate, fragpGo person_ids getInfo l =
      l.find? (fun c => person_ids.all (fun pid => (candidatePeopleIds getInfo c).contains pid)) := by
    intro l
    induction l with
    | nil => rfl
    | cons c rest ih =>
      cases hc : (person_ids.all fun pid => (candidatePeopleIds getInfo c).contains pid) with
      | true => simp only [fragpGo, List.find?_cons, hc]; rfl
      | false => simp only [fragpGo, List.find?_cons, hc]; exact ih
  unfold find_random_group_photo
  cases candidates with
  | nil => rfl
  | cons c rest =>
    rw [if_neg (by simp)]
    exact hgo (c :: rest)

/-- C9: a second `ensure_daily_image` while a fetch is marked in flight
changes no state and spawns nothing; over an empty image list two calls in
quick succession create exactly one (initial) fetch task. -/
theorem ensure_daily_image_single_fetch (s : ManagerState) (today : String) :
    (s.updating = true → ensure_daily_image today s = (s, [])) ∧
    (s.updating = false → s.daily_images = [] →
      (ensure_daily_image today s).1 = { s with updating := true } ∧
      (ensure_daily_image today s).2 = [MEvent.spawnInitial] ∧
      ensure_daily_image today (ensure_daily_image today s).1 =
        ((ensure_daily_image today s).1, [])) := by
  constructor
  · intro h; simp [ensure_daily_image, h]
  · intro h1 h2
    refine ⟨?_, ?_, ?_⟩ <;> simp [ensure_daily_image, h1, h2]

/-- Witness for C9 at a concrete empty state. -/
theorem ensure_daily_image_single_fetch_witness :
    (ensure_daily_image "2025-01-02" ⟨[], 0, none, false⟩).2 = [MEvent.spawnInitial] ∧
    ensure_daily_image "2025-01-02" (ensure_daily_image "2025-01-02" ⟨[], 0, none, false⟩).1 =
      ((ensure_daily_image "2025-01-02" ⟨[], 0, none, false⟩).1, []) := by
  have h := (ensure_daily_image_single_fetch ⟨[], 0, none, false⟩ "2025-01-02").2 rfl rfl
  exact ⟨h.2.1, h.2.2⟩

/-- C2: every byte of the packed bitmap produced by `convert_image_to_bin`
(optimized path) has both nibbles in `{0, 1, 2, 3, 5, 6}` — nibble 4 never
appears — and the firmware remap takes palette index 4 (blue) to code 5 and
index 5 (green) to code 6. -/
theorem convert_image_to_bin_nibble_invariant (img : BRaster) :
    (convert_image_to_bin img).all nibbleOK = true ∧
    (4 : ℕ) ∉ nibbleSet ∧ remapIdx 4 = 5 ∧ remapIdx 5 = 6 :=
  ⟨convert_pipeline_nibbleOK (compress_dynamic_range img PALETTE_MEASURED),
    by decide, rfl, rfl⟩

/-- C8: `compress_dynamic_range` maps linear luminance affinely by
`Y ↦ black_Y + Y * (white_Y - black_Y)` over the measured palette's black
and white points, strictly preserves the ordering of any two byte pixels'
luminances, and sends pixels with luminance at most `1e-6` to the display's
black point. -/
theorem compress_dynamic_range_luminance_monotone (p1 p2 : B3)
    (hb1 : p1.1 ≤ 255 ∧ p1.2.1 ≤ 255 ∧ p1.2.2 ≤ 255)
    (hb2 : p2.1 ≤ 255 ∧ p2.2.1 ≤ 255 ∧ p2.2.2 ≤ 255)
    (hY : lumY p1.1 p1.2.1 p1.2.2 < lumY p2.1 p2.2.1 p2.2.2) :
    lumOf (compress_pixel_linear PALETTE_MEASURED p1) <
      lumOf (compress_pixel_linear PALETTE_MEASURED p2) ∧
    (∀ q : B3, (1e-6 : ℝ) < lumY q.1 q.2.1 q.2.2 →
      lumOf (compress_pixel_linear PALETTE_MEASURED q) =
        blackY PALETTE_MEASURED +
          lumY q.1 q.2.1 q.2.2 * (whiteY PALETTE_MEASURED - blackY PALETTE_MEASURED)) ∧
    (∀ q : B3, lumY q.1 q.2.1 q.2.2 ≤ (1e-6 : ℝ) →
      compress_pixel_linear PALETTE_MEASURED q =
        (blackY PALETTE_MEASURED, blackY PALETTE_MEASURED, blackY PALETTE_MEASURED)) := by
  refine ⟨?_, fun q hq => compress_lumOf_affine PALETTE_MEASURED q hq,
    fun q hq => compress_black_point PALETTE_MEASURED q hq⟩
  have hd := range_measured_lb
  have hbv := blackY_measured_eq
  by_cases h1 : (1e-6 : ℝ) < lumY p1.1 p1.2.1 p1.2.2
  · have h2 : (1e-6 : ℝ) < lumY p2.1 p2.2.1 p2.2.2 := lt_trans h1 hY
    rw [compress_lumOf_affine PALETTE_MEASURED p1 h1,
      compress_lumOf_affine PALETTE_MEASURED p2 h2]
    have hdpos : (0 : ℝ) < whiteY PALETTE_MEASURED - blackY PALETTE_MEASURED :=
      lt_of_lt_of_le (by norm_num) hd
    nlinarith [mul_lt_mul_of_pos_right hY hdpos]
  · push_neg at h1
    rw [compress_black_point PALETTE_MEASURED p1 h1]
    have hY1nn : (0 : ℝ) ≤ lumY p1.1 p1.2.1 p1.2.2 := lumY_nonneg _ _ _
    have hY2pos : (0 : ℝ) < lumY p2.1 p2.2.1 p2.2.2 := lt_of_le_of_lt hY1nn hY
    have hne : ¬(p2.1 = 0 ∧ p2.2.1 = 0 ∧ p2.2.2 = 0) := by
      rintro ⟨ha, hb, hc⟩
      rw [ha, hb, hc, lumY_zero_eq] at hY2pos
      exact lt_irrefl 0 hY2pos
    have hY2lb : (1 : ℝ) / 50000 ≤ lumY p2.1 p2.2.1 p2.2.2 :=
      lumY_lb_of_ne p2.1 p2.2.1 p2.2.2 hb2.1 hb2.2.1 hb2.2.2 hne
    have h2 : (1e-6 : ℝ) < lumY p2.1 p2.2.1 p2.2.2 :=
      lt_of_lt_of_le (by norm_num) hY2lb
    rw [compress_lumOf_affine PALETTE_MEASURED p2 h2]
    have hprod : (1 : ℝ) / 50000 * (1 / 4) ≤
        lumY p2.1 p2.2.1 p2.2.2 * (whiteY PALETTE_MEASURED - blackY PALETTE_MEASURED) :=
      mul_le_mul hY2lb hd (by norm_num) (le_trans (by norm_num) hY2lb)
    unfold lumOf
    simp only
    rw [hbv] at *
    linarith

/-- Witness for C8 at the concrete pixels `(0,0,0)` and `(10,10,10)`. -/
theorem compress_dynamic_range_luminance_monotone_witness :
    lumOf (compress_pixel_linear PALETTE_MEASURED (0, 0, 0)) <
      lumOf (compress_pixel_linear PALETTE_MEASURED (10, 10, 10)) := by
  refine (compress_dynamic_range_luminance_monotone (0, 0, 0) (10, 10, 10)
    (by norm_num) (by norm_num) ?_).1
  show lumY 0 0 0 < lumY 10 10 10
  rw [lumY_zero_eq]
  unfold lumY
  rw [srgb_to_linear_ten]
  norm_num

/-- C10: with an empty image list every action is a complete no-op — state
unchanged, nothing persisted, no fetch spawned (so the `% len` index
arithmetic is never reached with a zero modulus). -/
theorem handle_action_empty_noop (action : String) (s : ManagerState)
    (h : s.daily_images = []) :
    handle_action action s = (s, []) := by
  simp [handle_action, h]

/-- Witness for C10 at a concrete empty state. -/
theorem handle_action_empty_noop_witness :
    handle_action "next" ⟨[], 5, none, true⟩ = (⟨[], 5, none, true⟩, []) :=
  handle_action_empty_noop "next" ⟨[], 5, none, true⟩ rfl

end Taulu
